import Mathlib

/-!
Shallow embedding of the Ludo rules engine from bot/game_logic.py.

Conventions used throughout:
- Python integers are modelled as Int (Python ints are unbounded, and all
  board positions are small signed values).
- The insertion-ordered players dict is an association list of
  (player id, PlayerData) pairs built with dict insert-or-update semantics.
- Methods that can raise (KeyError on a missing player id, IndexError on an
  out-of-range index or color table read, ZeroDivisionError on an empty
  player order) return Option; a none models an uncaught Python exception.
  Every none path occurs before any state mutation in the source, except
  get_next_player on an empty seat list, which cannot arise in games the
  constructor accepts.
- random.randint(1, 6) is externalised: roll_dice takes the drawn value as
  an explicit argument, so the engine is a pure function of state and draws.
-/

def HOME_YARD : Int := -1
def HOME_STRETCH_START : Int := 52
def HOME_POSITION : Int := 58

def START_POSITIONS : List Int := [0, 13, 26, 39]
def HOME_ENTRY_POSITIONS : List Int := [50, 11, 24, 37]
def SAFE_ZONES : List Int := [0, 8, 13, 21, 26, 34, 39, 47]

def player_colors : List String := ["🔴", "🟢", "🟡", "🔵"]

structure PlayerData where
  tokens : List Int
  color : String
  player_index : Nat
deriving DecidableEq

structure LudoGame where
  players : List (Int × PlayerData)
  win_condition : Int
  player_order : List Int
  current_player_index : Nat
  dice_roll : Int
  consecutive_sixes : Int
deriving DecidableEq

/-- Insert-or-update with Python dict semantics: an existing key keeps its
position in the iteration order and receives the new value; a fresh key is
appended at the end. -/
def dictInsert (k : Int) (v : PlayerData) : List (Int × PlayerData) → List (Int × PlayerData)
  | [] => [(k, v)]
  | (k2, v2) :: rest => if k2 = k then (k, v) :: rest else (k2, v2) :: dictInsert k v rest

/-- Dict read, mirroring a Python dict subscript; none models KeyError. -/
def dictGet : List (Int × PlayerData) → Int → Option PlayerData
  | [], _ => none
  | (k2, v2) :: rest, k => if k2 = k then some v2 else dictGet rest k

/-- The dict comprehension in LudoGame.__init__: one entry per enumerated
player id, all four tokens in the yard.  The color table read raises
IndexError from the fifth player on, which the Option models. -/
def buildPlayers : Nat → List Int → List (Int × PlayerData) → Option (List (Int × PlayerData))
  | _, [], acc => some acc
  | i, pid :: rest, acc =>
    match player_colors[i]? with
    | none => none
    | some c => buildPlayers (i + 1) rest (dictInsert pid ⟨List.replicate 4 HOME_YARD, c, i⟩ acc)

/-- LudoGame.__init__: stores the players dict, the win condition and the
turn order, and zero-initialises the turn index, die value and six counter.
The source performs no argument validation of any kind. -/
def ludoInit (players : List Int) (win_condition : Int) : Option LudoGame :=
  match buildPlayers 0 players [] with
  | none => none
  | some ps => some ⟨ps, win_condition, players, 0, 0, 0⟩

/-- LudoGame.roll_dice with the random draw made explicit.  Stores the draw
as the active die value, tracks consecutive sixes, and on the third six in
a row forces the die to 0, resets the counter and returns -1 (lost turn);
otherwise returns the stored die value. -/
def roll_dice (g : LudoGame) (draw : Int) : LudoGame × Int :=
  if draw = 6 then
    if g.consecutive_sixes + 1 = 3 then
      ({ g with dice_roll := 0, consecutive_sixes := 0 }, -1)
    else
      ({ g with dice_roll := draw, consecutive_sixes := g.consecutive_sixes + 1 }, draw)
  else
    ({ g with dice_roll := draw, consecutive_sixes := 0 }, draw)

/-- The token loop of LudoGame.get_movable_tokens: walks the enumerated
token list and collects the indices the source appends. -/
def movableIndices (d : Int) : Nat → List Int → List Nat
  | _, [] => []
  | i, pos :: rest =>
    if pos = HOME_YARD ∧ d = 6 then i :: movableIndices d (i + 1) rest
    else if pos = HOME_POSITION then movableIndices d (i + 1) rest
    else if HOME_STRETCH_START ≤ pos then
      if pos + d ≤ HOME_POSITION then i :: movableIndices d (i + 1) rest
      else movableIndices d (i + 1) rest
    else if pos ≠ HOME_YARD then i :: movableIndices d (i + 1) rest
    else movableIndices d (i + 1) rest

/-- LudoGame.get_movable_tokens: with die value 0 it returns the empty list
before touching the players dict; otherwise it filters the player's tokens. -/
def get_movable_tokens (g : LudoGame) (player_id : Int) : Option (List Nat) :=
  if g.dice_roll = 0 then some []
  else
    match dictGet g.players player_id with
    | none => none
    | some player_data => some (movableIndices g.dice_roll 0 player_data.tokens)

/-- The scan in LudoGame._knock_out_opponents_at that records, for every
token sitting on the given cell, the id of the seat owning it (one list
entry per token, in dict iteration order). -/
def tokensAt : List (Int × PlayerData) → Int → List Int
  | [], _ => []
  | (pid, d) :: rest, position =>
    (d.tokens.filterMap fun t => if t = position then some pid else none) ++ tokensAt rest position

/-- The inner loop of LudoGame._knock_out_opponents_at: every token of one
seat sitting on the cell is sent back to the yard. -/
def sendHome (toks : List Int) (position : Int) : List Int :=
  toks.map fun t => if t = position then HOME_YARD else t

/-- LudoGame._knock_out_opponents_at: no effect on a safe zone; no effect
when the cell holds two or more tokens of one seat (the block test compares
the length of the occupant list against the size of its set of seat ids);
otherwise every token of every other seat on the cell goes back to the yard. -/
def knock_out_opponents_at (g : LudoGame) (position : Int) (current_player_id : Int) : LudoGame :=
  if position ∈ SAFE_ZONES then g
  else if (tokensAt g.players position).length > 1 ∧
      (tokensAt g.players position).dedup.length < (tokensAt g.players position).length then g
  else
    { g with players := g.players.map fun pr =>
        if pr.1 ≠ current_player_id then
          (pr.1, { pr.2 with tokens := sendHome pr.2.tokens position })
        else pr }

/-- The token position write in LudoGame.move_token. -/
def setToken (g : LudoGame) (pid : Int) (i : Nat) (v : Int) : LudoGame :=
  { g with players := g.players.map fun pr =>
      if pr.1 = pid then (pr.1, { pr.2 with tokens := pr.2.tokens.set i v }) else pr }

/-- LudoGame.move_token: rule 1 leaves the yard on a six, rule 2 branches
into the home stretch when the move crosses the home entry cell, rule 3
moves inside the home stretch, rule 4 moves along the 52-cell ring.  The
source reads the player entry and the token position before anything else,
so both none paths precede any mutation. -/
def move_token (g : LudoGame) (player_id : Int) (token_index : Nat) : Option (LudoGame × String) :=
  match dictGet g.players player_id with
  | none => none
  | some player_data =>
    match player_data.tokens[token_index]? with
    | none => none
    | some current_pos =>
      if current_pos = HOME_YARD ∧ g.dice_roll = 6 then
        match START_POSITIONS[player_data.player_index]? with
        | none => none
        | some start_pos =>
          some (setToken (knock_out_opponents_at g start_pos player_id) player_id token_index start_pos,
            ("entered"))
      else
        match HOME_ENTRY_POSITIONS[player_data.player_index]? with
        | none => none
        | some home_entry =>
          if current_pos ≤ home_entry ∧ home_entry < current_pos + g.dice_roll then
            some (setToken g player_id token_index
              (HOME_STRETCH_START + (current_pos + g.dice_roll - home_entry) - 1), ("homeward"))
          else if HOME_STRETCH_START ≤ current_pos then
            some (setToken g player_id token_index (current_pos + g.dice_roll),
              (if current_pos + g.dice_roll = HOME_POSITION then ("home") else ("moved")))
          else
            some (setToken (knock_out_opponents_at g ((current_pos + g.dice_roll) % 52) player_id)
              player_id token_index ((current_pos + g.dice_roll) % 52), ("moved"))

/-- LudoGame.get_current_player_id; none models the IndexError on an
out-of-range turn index. -/
def get_current_player_id (g : LudoGame) : Option Int :=
  g.player_order[g.current_player_index]?

/-- LudoGame.get_next_player: advances the turn index (wrapping) unless the
die shows 6, resets the die to 0, and returns the new current player id.
The second conjunct of the source condition compares the six counter with
-1, a value the counter never takes in a constructed game. -/
def get_next_player (g : LudoGame) : Option (LudoGame × Int) :=
  if g.dice_roll ≠ 6 ∧ g.consecutive_sixes ≠ -1 then
    if g.player_order.length = 0 then none
    else
      match get_current_player_id { g with current_player_index := (g.current_player_index + 1) % g.player_order.length, dice_roll := 0 } with
      | none => none
      | some pid => some ({ g with current_player_index := (g.current_player_index + 1) % g.player_order.length, dice_roll := 0 }, pid)
  else
    match get_current_player_id { g with dice_roll := 0 } with
    | none => none
    | some pid => some ({ g with dice_roll := 0 }, pid)

/-- LudoGame.check_win: a seat wins when its count of tokens at the home
position reaches the configured win condition. -/
def check_win (g : LudoGame) (player_id : Int) : Option Bool :=
  match dictGet g.players player_id with
  | none => none
  | some player_data =>
    some (decide (g.win_condition ≤ ((player_data.tokens.countP (fun t => decide (t = HOME_POSITION)) : Nat) : Int)))


/-! Semantic layer: the position regions of the spec, game validity, and the
transition relation generated by the engine operations. -/

/-- A position is in one of the five board regions: the yard sentinel, the
52-cell main path, the private home stretch, or the terminal home cell. -/
def ValidPos (p : Int) : Prop :=
  p = HOME_YARD ∨ (0 ≤ p ∧ p ≤ 51) ∨ (HOME_STRETCH_START ≤ p ∧ p ≤ 57) ∨ p = HOME_POSITION

instance : DecidablePred ValidPos := fun p => by
  unfold ValidPos
  infer_instance

/-- Every token of every seat sits in one of the five board regions. -/
def validPositions (g : LudoGame) : Prop :=
  ∀ pr ∈ g.players, ∀ p ∈ pr.2.tokens, ValidPos p

instance (g : LudoGame) : Decidable (validPositions g) := by
  unfold validPositions
  infer_instance

/-- The inductive invariant: all token positions are in valid regions, the
stored die value is one of 0..6, and every seat's palette index is below 4. -/
def ValidGame (g : LudoGame) : Prop :=
  validPositions g ∧
  (∀ pr ∈ g.players, pr.2.player_index < 4) ∧
  0 ≤ g.dice_roll ∧ g.dice_roll ≤ 6

/-- The per-token condition under which get_movable_tokens keeps an index,
read off the branch structure of the source loop. -/
def movCond (d pos : Int) : Prop :=
  (pos = HOME_YARD ∧ d = 6) ∨
  (pos ≠ HOME_POSITION ∧ HOME_STRETCH_START ≤ pos ∧ pos + d ≤ HOME_POSITION) ∨
  (pos ≠ HOME_YARD ∧ pos < HOME_STRETCH_START)

/-- One valid engine operation: a die roll with a draw in 1..6, a move of a
token listed by get_movable_tokens for the current die value, or a turn
advance. -/
inductive Step : LudoGame → LudoGame → Prop where
  | roll (g : LudoGame) (draw : Int) (h1 : 1 ≤ draw) (h6 : draw ≤ 6) :
      Step g (roll_dice g draw).1
  | move (g g2 : LudoGame) (pid : Int) (i : Nat) (l : List Nat) (s : String)
      (hl : get_movable_tokens g pid = some l) (hi : i ∈ l)
      (hm : move_token g pid i = some (g2, s)) : Step g g2
  | advance (g g2 : LudoGame) (pid : Int) (h : get_next_player g = some (g2, pid)) :
      Step g g2

/-- Match states reachable from construction by valid operations. -/
inductive Reachable : LudoGame → Prop where
  | init (players : List Int) (wc : Int) (g : LudoGame)
      (h : ludoInit players wc = some g) : Reachable g
  | step (g g2 : LudoGame) (hg : Reachable g) (hs : Step g g2) : Reachable g2

/-- A scripted engine operation: the resolved die draw, a chosen move, or a
turn advance.  Identical scripts model identical seeded random sequences
and identical move choices. -/
inductive GameEvent where
  | roll (draw : Int)
  | move (pid : Int) (tokenIndex : Nat)
  | advance

/-- Big-step execution of one scripted operation. -/
inductive Exec : LudoGame → GameEvent → LudoGame → Prop where
  | roll (g : LudoGame) (d : Int) : Exec g (GameEvent.roll d) (roll_dice g d).1
  | move (g g2 : LudoGame) (pid : Int) (i : Nat) (s : String)
      (h : move_token g pid i = some (g2, s)) : Exec g (GameEvent.move pid i) g2
  | advance (g g2 : LudoGame) (pid : Int)
      (h : get_next_player g = some (g2, pid)) : Exec g GameEvent.advance g2

/-- Execution of a whole script of operations. -/
inductive ExecSeq : LudoGame → List GameEvent → LudoGame → Prop where
  | nil (g : LudoGame) : ExecSeq g [] g
  | cons (g g1 g2 : LudoGame) (e : GameEvent) (es : List GameEvent)
      (h1 : Exec g e g1) (h2 : ExecSeq g1 es g2) : ExecSeq g (e :: es) g2

/-! Helper lemmas about the list-level building blocks. -/

theorem dictGet_mem : ∀ (ps : List (Int × PlayerData)) (k : Int) (v : PlayerData),
    dictGet ps k = some v → (k, v) ∈ ps := by
  intro ps
  induction ps with
  | nil => intro k v h; cases h
  | cons hd tl ih =>
    intro k v h
    obtain ⟨k2, v2⟩ := hd
    rw [dictGet] at h
    split_ifs at h with hk
    · injection h with h
      subst h
      subst hk
      exact List.mem_cons_self _ _
    · exact List.mem_cons_of_mem _ (ih k v h)

theorem mem_dictInsert : ∀ (ps : List (Int × PlayerData)) (k : Int) (v : PlayerData)
    (pr : Int × PlayerData), pr ∈ dictInsert k v ps → pr = (k, v) ∨ pr ∈ ps := by
  intro ps
  induction ps with
  | nil =>
    intro k v pr h
    rw [dictInsert] at h
    simpa using h
  | cons hd tl ih =>
    intro k v pr h
    obtain ⟨k2, v2⟩ := hd
    rw [dictInsert] at h
    split_ifs at h with hk
    · rcases List.mem_cons.mp h with h | h
      · exact Or.inl h
      · exact Or.inr (List.mem_cons_of_mem _ h)
    · rcases List.mem_cons.mp h with h | h
      · exact Or.inr (h ▸ List.mem_cons_self _ _)
      · rcases ih k v pr h with h | h
        · exact Or.inl h
        · exact Or.inr (List.mem_cons_of_mem _ h)

theorem movCond_of_yard (d pos : Int) (h : pos = HOME_YARD ∧ d = 6) : movCond d pos :=
  Or.inl h

theorem movCond_of_stretch (d pos : Int) (h2 : pos ≠ HOME_POSITION)
    (h3 : HOME_STRETCH_START ≤ pos) (h4 : pos + d ≤ HOME_POSITION) : movCond d pos :=
  Or.inr (Or.inl ⟨h2, h3, h4⟩)

theorem movCond_of_main (d pos : Int) (h5 : pos ≠ HOME_YARD)
    (h3 : ¬ HOME_STRETCH_START ≤ pos) : movCond d pos :=
  Or.inr (Or.inr ⟨h5, lt_of_not_le h3⟩)

theorem not_movCond_home (d pos : Int) (h1 : ¬ (pos = HOME_YARD ∧ d = 6))
    (h2 : pos = HOME_POSITION) : ¬ movCond d pos := by
  rintro (hc | ⟨hne, _, _⟩ | ⟨_, hlt⟩)
  · exact h1 hc
  · exact hne h2
  · subst h2
    simp [HOME_POSITION, HOME_STRETCH_START] at hlt

theorem not_movCond_overshoot (d pos : Int) (h3 : HOME_STRETCH_START ≤ pos)
    (h4 : ¬ pos + d ≤ HOME_POSITION) : ¬ movCond d pos := by
  rintro (⟨hy, _⟩ | ⟨_, _, hle⟩ | ⟨_, hlt⟩)
  · subst hy
    simp [HOME_YARD, HOME_STRETCH_START] at h3
  · exact h4 hle
  · exact absurd h3 (not_le.mpr hlt)

theorem not_movCond_yard (d pos : Int) (h1 : ¬ (pos = HOME_YARD ∧ d = 6))
    (h5 : ¬ pos ≠ HOME_YARD) : ¬ movCond d pos := by
  have hy : pos = HOME_YARD := not_not.mp h5
  rintro (hc | ⟨_, h3, _⟩ | ⟨hne, _⟩)
  · exact h1 hc
  · subst hy
    simp [HOME_YARD, HOME_STRETCH_START] at h3
  · exact hne hy

theorem mem_movableIndices (d : Int) :
    ∀ (toks : List Int) (k i : Nat),
      i ∈ movableIndices d k toks ↔
        ∃ j : Nat, ∃ p : Int, toks[j]? = some p ∧ i = k + j ∧ movCond d p := by
  intro toks
  induction toks with
  | nil =>
    intro k i
    simp [movableIndices]
  | cons pos rest ih =>
    intro k i
    have hsplit : (∃ j : Nat, ∃ p : Int, (pos :: rest)[j]? = some p ∧ i = k + j ∧ movCond d p) ↔
        ((i = k ∧ movCond d pos) ∨
          (∃ j : Nat, ∃ p : Int, rest[j]? = some p ∧ i = (k + 1) + j ∧ movCond d p)) := by
      constructor
      · rintro ⟨j, p, hj, hi, hc⟩
        match j with
        | 0 =>
          rw [List.getElem?_cons_zero] at hj
          injection hj with hj
          subst hj
          exact Or.inl ⟨by omega, hc⟩
        | Nat.succ m =>
          rw [List.getElem?_cons_succ] at hj
          exact Or.inr ⟨m, p, hj, by omega, hc⟩
      · rintro (⟨hi, hc⟩ | ⟨j, p, hj, hi, hc⟩)
        · exact ⟨0, pos, by simp, by omega, hc⟩
        · exact ⟨j + 1, p, by simpa using hj, by omega, hc⟩
    rw [hsplit, movableIndices]
    have hkeep : ∀ hmc : movCond d pos,
        (i ∈ k :: movableIndices d (k + 1) rest ↔
          (i = k ∧ movCond d pos) ∨
            (∃ j : Nat, ∃ p : Int, rest[j]? = some p ∧ i = (k + 1) + j ∧ movCond d p)) := by
      intro hmc
      rw [List.mem_cons, ih (k + 1) i]
      constructor
      · rintro (rfl | h)
        · exact Or.inl ⟨rfl, hmc⟩
        · exact Or.inr h
      · rintro (⟨rfl, -⟩ | h)
        · exact Or.inl rfl
        · exact Or.inr h
    have hskip : ∀ _ : ¬ movCond d pos,
        (i ∈ movableIndices d (k + 1) rest ↔
          (i = k ∧ movCond d pos) ∨
            (∃ j : Nat, ∃ p : Int, rest[j]? = some p ∧ i = (k + 1) + j ∧ movCond d p)) := by
      intro hmc
      rw [ih (k + 1) i]
      constructor
      · exact Or.inr
      · rintro (⟨-, hc⟩ | h)
        · exact absurd hc hmc
        · exact h
    split_ifs with h1 h2 h3 h4 h5
    · exact hkeep (movCond_of_yard d pos h1)
    · exact hskip (not_movCond_home d pos h1 h2)
    · exact hkeep (movCond_of_stretch d pos h2 h3 h4)
    · exact hskip (not_movCond_overshoot d pos h3 h4)
    · exact hkeep (movCond_of_main d pos h5 h3)
    · exact hskip (not_movCond_yard d pos h1 h5)

theorem dictGet_mapSet : ∀ (ps : List (Int × PlayerData)) (pid : Int) (pd : PlayerData)
    (i : Nat) (v : Int), dictGet ps pid = some pd →
    dictGet (ps.map fun pr =>
        if pr.1 = pid then (pr.1, { pr.2 with tokens := pr.2.tokens.set i v }) else pr) pid
      = some { pd with tokens := pd.tokens.set i v } := by
  intro ps
  induction ps with
  | nil => intro pid pd i v h; cases h
  | cons hd tl ih =>
    intro pid pd i v h
    obtain ⟨k2, v2⟩ := hd
    rw [dictGet] at h
    split_ifs at h with hk
    · injection h with h
      subst h
      subst hk
      rw [List.map_cons]
      dsimp only
      rw [if_pos rfl, dictGet, if_pos rfl]
    · rw [List.map_cons]
      dsimp only
      rw [if_neg hk, dictGet, if_neg hk]
      exact ih pid pd i v h

theorem dictGet_setToken (g : LudoGame) (pid : Int) (pd : PlayerData) (i : Nat) (v : Int)
    (h : dictGet g.players pid = some pd) :
    dictGet (setToken g pid i v).players pid = some { pd with tokens := pd.tokens.set i v } := by
  simp only [setToken]
  exact dictGet_mapSet g.players pid pd i v h

theorem setToken_mem_other (g : LudoGame) (pid : Int) (i : Nat) (v : Int)
    (pr : Int × PlayerData) (hpr : pr ∈ g.players) (hne : pr.1 ≠ pid) :
    pr ∈ (setToken g pid i v).players := by
  simp only [setToken]
  refine List.mem_map.mpr ⟨pr, hpr, ?_⟩
  rw [if_neg hne]

theorem setToken_valid (g : LudoGame) (pid : Int) (i : Nat) (v : Int)
    (hg : ValidGame g) (hv : ValidPos v) : ValidGame (setToken g pid i v) := by
  obtain ⟨hpos, hidx, hd0, hd6⟩ := hg
  refine ⟨?_, ?_, hd0, hd6⟩
  · intro pr hpr p hp
    simp only [setToken] at hpr
    rcases List.mem_map.mp hpr with ⟨q, hq, rfl⟩
    by_cases hk : q.1 = pid
    · rw [if_pos hk] at hp
      dsimp only at hp
      rcases List.mem_or_eq_of_mem_set hp with h | rfl
      · exact hpos q hq p h
      · exact hv
    · rw [if_neg hk] at hp
      exact hpos q hq p hp
  · intro pr hpr
    simp only [setToken] at hpr
    rcases List.mem_map.mp hpr with ⟨q, hq, rfl⟩
    by_cases hk : q.1 = pid
    · rw [if_pos hk]
      exact hidx q hq
    · rw [if_neg hk]
      exact hidx q hq

theorem knock_out_valid (g : LudoGame) (position cpid : Int) (hg : ValidGame g) :
    ValidGame (knock_out_opponents_at g position cpid) := by
  unfold knock_out_opponents_at
  split_ifs with hsafe hblock
  · exact hg
  · exact hg
  · obtain ⟨hpos, hidx, hd0, hd6⟩ := hg
    refine ⟨?_, ?_, hd0, hd6⟩
    · intro pr hpr p hp
      dsimp only at hpr
      rcases List.mem_map.mp hpr with ⟨q, hq, rfl⟩
      by_cases hk : q.1 ≠ cpid
      · rw [if_pos hk] at hp
        dsimp only at hp
        simp only [sendHome] at hp
        rcases List.mem_map.mp hp with ⟨t, ht, rfl⟩
        by_cases hteq : t = position
        · rw [if_pos hteq]
          exact Or.inl rfl
        · rw [if_neg hteq]
          exact hpos q hq t ht
      · rw [if_neg hk] at hp
        exact hpos q hq p hp
    · intro pr hpr
      dsimp only at hpr
      rcases List.mem_map.mp hpr with ⟨q, hq, rfl⟩
      by_cases hk : q.1 ≠ cpid
      · rw [if_pos hk]
        exact hidx q hq
      · rw [if_neg hk]
        exact hidx q hq

theorem roll_valid (g : LudoGame) (d : Int) (h1 : 1 ≤ d) (h6 : d ≤ 6) (hg : ValidGame g) :
    ValidGame (roll_dice g d).1 := by
  obtain ⟨hpos, hidx, -, -⟩ := hg
  unfold roll_dice
  split_ifs with ha hb
  · refine ⟨hpos, hidx, ?_, ?_⟩
    · show (0 : Int) ≤ 0
      norm_num
    · show (0 : Int) ≤ 6
      norm_num
  · refine ⟨hpos, hidx, ?_, ?_⟩
    · show (0 : Int) ≤ d
      omega
    · show d ≤ 6
      omega
  · refine ⟨hpos, hidx, ?_, ?_⟩
    · show (0 : Int) ≤ d
      omega
    · show d ≤ 6
      omega

theorem advance_valid (g g2 : LudoGame) (pid : Int)
    (h : get_next_player g = some (g2, pid)) (hg : ValidGame g) : ValidGame g2 := by
  obtain ⟨hpos, hidx, -, -⟩ := hg
  unfold get_next_player at h
  split_ifs at h with ha hb
  · cases hm : get_current_player_id { g with current_player_index := (g.current_player_index + 1) % g.player_order.length, dice_roll := 0 } with
    | none =>
      rw [hm] at h
      cases h
    | some q =>
      rw [hm] at h
      injection h with h
      injection h with h h2
      subst h
      refine ⟨hpos, hidx, ?_, ?_⟩
      · show (0 : Int) ≤ 0
        norm_num
      · show (0 : Int) ≤ 6
        norm_num
  · cases hm : get_current_player_id { g with dice_roll := 0 } with
    | none =>
      rw [hm] at h
      cases h
    | some q =>
      rw [hm] at h
      injection h with h
      injection h with h h2
      subst h
      refine ⟨hpos, hidx, ?_, ?_⟩
      · show (0 : Int) ≤ 0
        norm_num
      · show (0 : Int) ≤ 6
        norm_num

theorem buildPlayers_spec : ∀ (l : List Int) (i : Nat) (acc : List (Int × PlayerData)),
    i + l.length ≤ 4 →
    (∀ pr ∈ acc, pr.2.tokens = List.replicate 4 HOME_YARD ∧ pr.2.player_index < 4) →
    ∃ ps, buildPlayers i l acc = some ps ∧
      ∀ pr ∈ ps, pr.2.tokens = List.replicate 4 HOME_YARD ∧ pr.2.player_index < 4 := by
  intro l
  induction l with
  | nil =>
    intro i acc hle hacc
    exact ⟨acc, rfl, hacc⟩
  | cons pid rest ih =>
    intro i acc hle hacc
    have hi4 : i < 4 := by
      simp only [List.length_cons] at hle
      omega
    have hcol : ∃ c, player_colors[i]? = some c := by
      interval_cases i
      · exact ⟨_, rfl⟩
      · exact ⟨_, rfl⟩
      · exact ⟨_, rfl⟩
      · exact ⟨_, rfl⟩
    obtain ⟨c, hc⟩ := hcol
    rw [buildPlayers, hc]
    refine ih (i + 1) _ ?_ ?_
    · simp only [List.length_cons] at hle
      omega
    · intro pr hpr
      rcases mem_dictInsert acc pid ⟨List.replicate 4 HOME_YARD, c, i⟩ pr hpr with rfl | hpr
      · exact ⟨rfl, hi4⟩
      · exact hacc pr hpr

theorem buildPlayers_inv : ∀ (l : List Int) (i : Nat) (acc ps : List (Int × PlayerData)),
    buildPlayers i l acc = some ps →
    (∀ pr ∈ acc, pr.2.tokens = List.replicate 4 HOME_YARD ∧ pr.2.player_index < 4) →
    ∀ pr ∈ ps, pr.2.tokens = List.replicate 4 HOME_YARD ∧ pr.2.player_index < 4 := by
  intro l
  induction l with
  | nil =>
    intro i acc ps h hacc
    injection h with h
    subst h
    exact hacc
  | cons pid rest ih =>
    intro i acc ps h hacc
    rw [buildPlayers] at h
    cases hc : player_colors[i]? with
    | none =>
      rw [hc] at h
      cases h
    | some c =>
      rw [hc] at h
      have hi4 : i < 4 := by
        have hlt := (List.getElem?_eq_some.mp hc).1
        simpa [player_colors] using hlt
      refine ih (i + 1) _ ps h ?_
      intro pr hpr
      rcases mem_dictInsert acc pid ⟨List.replicate 4 HOME_YARD, c, i⟩ pr hpr with rfl | hpr
      · exact ⟨rfl, hi4⟩
      · exact hacc pr hpr

theorem ludoInit_valid (players : List Int) (wc : Int) (g : LudoGame)
    (h : ludoInit players wc = some g) : ValidGame g := by
  unfold ludoInit at h
  cases hb : buildPlayers 0 players [] with
  | none =>
    rw [hb] at h
    cases h
  | some ps =>
    rw [hb] at h
    injection h with h
    subst h
    have hinv := buildPlayers_inv players 0 [] ps hb (by intro pr hpr; cases hpr)
    refine ⟨?_, ?_, ?_, ?_⟩
    · intro pr hpr p hp
      rw [(hinv pr hpr).1] at hp
      rw [List.eq_of_mem_replicate hp]
      exact Or.inl rfl
    · intro pr hpr
      exact (hinv pr hpr).2
    · show (0 : Int) ≤ 0
      norm_num
    · show (0 : Int) ≤ 6
      norm_num

theorem startPos_spec (idx : Nat) (h : idx < 4) :
    ∃ sp, START_POSITIONS[idx]? = some sp ∧ 0 ≤ sp ∧ sp ≤ 51 := by
  interval_cases idx
  · exact ⟨0, rfl, by norm_num, by norm_num⟩
  · exact ⟨13, rfl, by norm_num, by norm_num⟩
  · exact ⟨26, rfl, by norm_num, by norm_num⟩
  · exact ⟨39, rfl, by norm_num, by norm_num⟩

theorem homeEntry_spec (idx : Nat) (h : idx < 4) :
    ∃ he, HOME_ENTRY_POSITIONS[idx]? = some he ∧ 0 ≤ he ∧ he ≤ 50 := by
  interval_cases idx
  · exact ⟨50, rfl, by norm_num, by norm_num⟩
  · exact ⟨11, rfl, by norm_num, by norm_num⟩
  · exact ⟨24, rfl, by norm_num, by norm_num⟩
  · exact ⟨37, rfl, by norm_num, by norm_num⟩

theorem move_valid (g g2 : LudoGame) (pid : Int) (i : Nat) (l : List Nat) (s : String)
    (hg : ValidGame g) (hl : get_movable_tokens g pid = some l) (hi : i ∈ l)
    (hm : move_token g pid i = some (g2, s)) : ValidGame g2 := by
  obtain ⟨hpos, hidx, hd0, hd6⟩ := hg
  unfold get_movable_tokens at hl
  by_cases hz : g.dice_roll = 0
  · rw [if_pos hz] at hl
    injection hl with hl
    subst hl
    cases hi
  · rw [if_neg hz] at hl
    cases hpd : dictGet g.players pid with
    | none =>
      rw [hpd] at hl
      cases hl
    | some pd =>
      rw [hpd] at hl
      injection hl with hl
      subst hl
      rw [mem_movableIndices] at hi
      obtain ⟨j, p, htok, hij, hcond⟩ := hi
      have hij0 : j = i := by omega
      subst hij0
      have hpmem : p ∈ pd.tokens := List.getElem?_mem htok
      have hpv : ValidPos p := hpos (pid, pd) (dictGet_mem _ _ _ hpd) p hpmem
      have hidx4 : pd.player_index < 4 := hidx (pid, pd) (dictGet_mem _ _ _ hpd)
      have hd1 : 1 ≤ g.dice_roll := by omega
      have hgv : ValidGame g := ⟨hpos, hidx, hd0, hd6⟩
      unfold move_token at hm
      rw [hpd] at hm
      dsimp only at hm
      rw [htok] at hm
      dsimp only at hm
      rcases hcond with ⟨hy, h6⟩ | ⟨hne58, h52, hle⟩ | ⟨hney, hlt52⟩
      · rw [if_pos ⟨hy, h6⟩] at hm
        obtain ⟨sp, hsp, hsp0, hsp51⟩ := startPos_spec _ hidx4
        rw [hsp] at hm
        dsimp only at hm
        injection hm with hm
        have hg2 := congrArg Prod.fst hm
        dsimp only at hg2
        rw [← hg2]
        exact setToken_valid _ _ _ _ (knock_out_valid _ _ _ hgv)
          (Or.inr (Or.inl ⟨hsp0, hsp51⟩))
      · have h52i : (52 : Int) ≤ p := by simpa [HOME_STRETCH_START] using h52
        have hlei : p + g.dice_roll ≤ 58 := by simpa [HOME_POSITION] using hle
        rw [if_neg (by rintro ⟨hy, -⟩; rw [hy] at h52i; simp [HOME_YARD] at h52i)] at hm
        obtain ⟨he, hhe, he0, he50⟩ := homeEntry_spec _ hidx4
        rw [hhe] at hm
        dsimp only at hm
        rw [if_neg (by rintro ⟨hple, -⟩; omega)] at hm
        rw [if_pos h52] at hm
        injection hm with hm
        have hg2 := congrArg Prod.fst hm
        dsimp only at hg2
        rw [← hg2]
        refine setToken_valid _ _ _ _ hgv ?_
        simp only [ValidPos, HOME_YARD, HOME_STRETCH_START, HOME_POSITION]
        omega
      · have hlt52i : p < (52 : Int) := by simpa [HOME_STRETCH_START] using hlt52
        rw [if_neg (by rintro ⟨hy, -⟩; exact hney hy)] at hm
        obtain ⟨he, hhe, he0, he50⟩ := homeEntry_spec _ hidx4
        rw [hhe] at hm
        dsimp only at hm
        by_cases hc2 : p ≤ he ∧ he < p + g.dice_roll
        · rw [if_pos hc2] at hm
          injection hm with hm
          have hg2 := congrArg Prod.fst hm
          dsimp only at hg2
          rw [← hg2]
          refine setToken_valid _ _ _ _ hgv ?_
          obtain ⟨hc2a, hc2b⟩ := hc2
          simp only [ValidPos, HOME_YARD, HOME_STRETCH_START, HOME_POSITION]
          omega
        · rw [if_neg hc2] at hm
          rw [if_neg (not_le.mpr hlt52)] at hm
          injection hm with hm
          have hg2 := congrArg Prod.fst hm
          dsimp only at hg2
          rw [← hg2]
          refine setToken_valid _ _ _ _ (knock_out_valid _ _ _ hgv) ?_
          have hm0 : 0 ≤ (p + g.dice_roll) % 52 := Int.emod_nonneg _ (by norm_num)
          have hm52 : (p + g.dice_roll) % 52 < 52 := Int.emod_lt_of_pos _ (by norm_num)
          exact Or.inr (Or.inl ⟨hm0, by omega⟩)

theorem reachable_valid : ∀ (g : LudoGame), Reachable g → ValidGame g := by
  intro g hg
  induction hg with
  | init ps wc gi h => exact ludoInit_valid ps wc gi h
  | step ga gb hga hs ih =>
    cases hs with
    | roll draw h1 h6 => exact roll_valid _ draw h1 h6 ih
    | move gb2 pid i l s hl hi hm => exact move_valid _ _ pid i l s ih hl hi hm
    | advance gb2 pid h => exact advance_valid _ _ pid h ih

/-- Fallback value used to name concrete constructed games. -/
def emptyGame : LudoGame := ⟨[], 0, [], 0, 0, 0⟩

/-- The two-seat game with win condition 1 produced by the constructor. -/
def gInit : LudoGame := (ludoInit [1, 2] 1).getD emptyGame

/-- C1: every match state reachable from construction by valid operations
(rolls drawing 1..6, moves of tokens listed by get_movable_tokens for the
current die value, turn advances) has every token position in one of the
regions YARD (-1), the main path 0..51, the home stretch 52..57, or
HOME (58); no operation ever writes any other integer. -/
theorem C1_positions_valid (g : LudoGame) (hg : Reachable g) : validPositions g :=
  (reachable_valid g hg).1

theorem C1_positions_valid_witness : validPositions gInit :=
  C1_positions_valid gInit (Reachable.init [1, 2] 1 gInit rfl)

theorem Exec_det (g : LudoGame) (e : GameEvent) (g1 g2 : LudoGame)
    (h1 : Exec g e g1) (h2 : Exec g e g2) : g1 = g2 := by
  cases h1 with
  | roll d =>
    cases h2 with
    | roll => rfl
  | move g1b pid i s h =>
    cases h2 with
    | move g2b pid2 i2 s2 hb =>
      rw [h] at hb
      injection hb with hb
      exact congrArg Prod.fst hb
  | advance g1b pid h =>
    cases h2 with
    | advance g2b pid2 hb =>
      rw [h] at hb
      injection hb with hb
      exact congrArg Prod.fst hb

theorem ExecSeq_det : ∀ (es : List GameEvent) (g gf1 gf2 : LudoGame),
    ExecSeq g es gf1 → ExecSeq g es gf2 → gf1 = gf2 := by
  intro es
  induction es with
  | nil =>
    intro g gf1 gf2 h1 h2
    cases h1
    cases h2
    rfl
  | cons e rest ih =>
    intro g gf1 gf2 h1 h2
    cases h1 with
    | cons _ ga _ _ _ hea hsa =>
      cases h2 with
      | cons _ gb _ _ _ heb hsb =>
        have hab := Exec_det g e ga gb hea heb
        subst hab
        exact ih ga gf1 gf2 hsa hsb

/-- C9: two matches constructed with identical seat lists and win
conditions and driven by the same script of resolved die draws, move
choices and turn advances reach identical final states: with randomness
externalised into the script, every engine operation is deterministic. -/
theorem C9_deterministic (seats : List Int) (wc : Int) (g1 g2 gf1 gf2 : LudoGame)
    (es : List GameEvent) (h1 : ludoInit seats wc = some g1) (h2 : ludoInit seats wc = some g2)
    (e1 : ExecSeq g1 es gf1) (e2 : ExecSeq g2 es gf2) : gf1 = gf2 := by
  rw [h1] at h2
  injection h2 with h2
  subst h2
  exact ExecSeq_det es g1 gf1 gf2 e1 e2

theorem C9_deterministic_witness : (roll_dice gInit 6).1 = (roll_dice gInit 6).1 :=
  C9_deterministic [1, 2] 1 gInit gInit _ _ [GameEvent.roll 6] rfl rfl
    (ExecSeq.cons _ _ _ _ _ (Exec.roll gInit 6) (ExecSeq.nil _))
    (ExecSeq.cons _ _ _ _ _ (Exec.roll gInit 6) (ExecSeq.nil _))

/-- C3: a main-path token whose move crosses its seat's home entry cell
(position ≤ homeTurnCell < position + die) is placed at
HOME_STRETCH_START + (position + die - homeTurnCell) - 1, the move reports
the stretch-entry kind (the source string is homeward), and nothing else
changes: the result is exactly a single-token update, with no capture scan
on this branch. -/
theorem C3_stretch_entry (g : LudoGame) (pid : Int) (pd : PlayerData) (i : Nat) (p he : Int)
    (hpd : dictGet g.players pid = some pd)
    (htok : pd.tokens[i]? = some p)
    (hhe : HOME_ENTRY_POSITIONS[pd.player_index]? = some he)
    (hp : 0 ≤ p)
    (h1 : p ≤ he) (h2 : he < p + g.dice_roll) :
    move_token g pid i =
      some (setToken g pid i (HOME_STRETCH_START + (p + g.dice_roll - he) - 1), ("homeward")) ∧
    dictGet (setToken g pid i (HOME_STRETCH_START + (p + g.dice_roll - he) - 1)).players pid =
      some { pd with tokens := pd.tokens.set i (HOME_STRETCH_START + (p + g.dice_roll - he) - 1) } ∧
    ∀ pr ∈ g.players, pr.1 ≠ pid →
      pr ∈ (setToken g pid i (HOME_STRETCH_START + (p + g.dice_roll - he) - 1)).players := by
  refine ⟨?_, dictGet_setToken g pid pd i _ hpd,
    fun pr hpr hne => setToken_mem_other g pid i _ pr hpr hne⟩
  unfold move_token
  rw [hpd]
  dsimp only
  rw [htok]
  dsimp only
  rw [if_neg (by rintro ⟨hy, -⟩; rw [hy] at hp; simp [HOME_YARD] at hp)]
  rw [hhe]
  dsimp only
  rw [if_pos ⟨h1, h2⟩]

/-- Two-seat game whose first seat has a token on main-path cell 48 with an
active die value of 4 (the spec's stretch-entry example). -/
def gW3 : LudoGame :=
  ⟨[(1, ⟨[48, -1, -1, -1], ("🔴"), 0⟩), (2, ⟨[-1, -1, -1, -1], ("🟢"), 1⟩)], 1, [1, 2], 0, 4, 0⟩

theorem C3_stretch_entry_witness :
    move_token gW3 1 0 = some (setToken gW3 1 0 53, ("homeward")) := by
  have h := (C3_stretch_entry gW3 1 ⟨[48, -1, -1, -1], ("🔴"), 0⟩ 0 48 50 rfl rfl rfl
    (by norm_num) (by decide) (by decide)).1
  exact h

/-- C4: get_movable_tokens returns the empty list for die value 0 and
otherwise exactly the indices of tokens that are in the yard with die value
exactly 6, in the home stretch with position + die at most HOME (58), or on
the main path 0..51; tokens already at HOME are never returned. -/
theorem C4_movable_characterisation (g : LudoGame) (pid : Int) (pd : PlayerData)
    (hpd : dictGet g.players pid = some pd)
    (hv : ∀ p ∈ pd.tokens, ValidPos p) :
    ∃ l, get_movable_tokens g pid = some l ∧
      (g.dice_roll = 0 → l = []) ∧
      (g.dice_roll ≠ 0 →
        ∀ i : Nat, (i ∈ l ↔ ∃ p, pd.tokens[i]? = some p ∧
          ((p = HOME_YARD ∧ g.dice_roll = 6) ∨
           (HOME_STRETCH_START ≤ p ∧ p ≤ 57 ∧ p + g.dice_roll ≤ HOME_POSITION) ∨
           (0 ≤ p ∧ p ≤ 51)))) ∧
      (∀ i : Nat, pd.tokens[i]? = some HOME_POSITION → i ∉ l) := by
  by_cases hz : g.dice_roll = 0
  · refine ⟨[], ?_, fun _ => rfl, fun h => absurd hz h, ?_⟩
    · unfold get_movable_tokens
      rw [if_pos hz]
    · intro i hm hmem
      cases hmem
  · refine ⟨movableIndices g.dice_roll 0 pd.tokens, ?_, fun h0 => absurd h0 hz, ?_, ?_⟩
    · unfold get_movable_tokens
      rw [if_neg hz, hpd]
    · intro hne i
      rw [mem_movableIndices]
      constructor
      · rintro ⟨j, p, hj, hij, hc⟩
        have hji : j = i := by omega
        subst hji
        refine ⟨p, hj, ?_⟩
        have hpv := hv p (List.getElem?_mem hj)
        rcases hc with ⟨hy, h6⟩ | ⟨hne58, h52, hle⟩ | ⟨hney, hlt⟩
        · exact Or.inl ⟨hy, h6⟩
        · refine Or.inr (Or.inl ⟨h52, ?_, hle⟩)
          rcases hpv with h | h | h | h
          · rw [h] at h52
            simp [HOME_YARD, HOME_STRETCH_START] at h52
          · simp [HOME_STRETCH_START] at h52
            omega
          · exact h.2
          · exact absurd h hne58
        · refine Or.inr (Or.inr ?_)
          rcases hpv with h | h | h | h
          · exact absurd h hney
          · exact h
          · simp [HOME_STRETCH_START] at hlt h
            omega
          · rw [h] at hlt
            simp [HOME_POSITION, HOME_STRETCH_START] at hlt
      · rintro ⟨p, hp, hc⟩
        refine ⟨i, p, hp, by omega, ?_⟩
        rcases hc with ⟨hy, h6⟩ | ⟨h52, h57, hle⟩ | ⟨h0, h51⟩
        · exact Or.inl ⟨hy, h6⟩
        · refine Or.inr (Or.inl ⟨?_, h52, hle⟩)
          intro he
          rw [he] at h57
          simp [HOME_POSITION] at h57
        · refine Or.inr (Or.inr ⟨?_, ?_⟩)
          · intro he
            rw [he] at h0
            simp [HOME_YARD] at h0
          · simp [HOME_STRETCH_START]
            omega
    · intro i h58 hmem
      rw [mem_movableIndices] at hmem
      obtain ⟨j, p, hj, hij, hc⟩ := hmem
      have hji : j = i := by omega
      subst hji
      rw [h58] at hj
      injection hj with hj
      subst hj
      rcases hc with ⟨hy, -⟩ | ⟨hne58, -, -⟩ | ⟨-, hlt⟩
      · simp [HOME_YARD, HOME_POSITION] at hy
      · exact hne58 rfl
      · simp [HOME_POSITION, HOME_STRETCH_START] at hlt

/-- Two-seat game where seat 1 has a yard token, a main-path token, a
stretch token that would overshoot, and a finished token, with die value 6. -/
def gW4 : LudoGame :=
  ⟨[(1, ⟨[-1, 10, 55, 58], ("🔴"), 0⟩), (2, ⟨[-1, -1, -1, -1], ("🟢"), 1⟩)], 1, [1, 2], 0, 6, 0⟩

theorem C4_movable_characterisation_witness :
    1 ∈ (get_movable_tokens gW4 1).getD [] ∧ 3 ∉ (get_movable_tokens gW4 1).getD [] := by
  obtain ⟨l, hl, -, hiff, h58⟩ := C4_movable_characterisation gW4 1
    ⟨[-1, 10, 55, 58], ("🔴"), 0⟩ rfl (by decide)
  rw [hl]
  simp only [Option.getD_some]
  constructor
  · exact (hiff (by decide) 1).mpr ⟨10, rfl, by decide⟩
  · exact h58 3 rfl

/-- C5: roll_dice increments the consecutive-six counter on a six; the
third consecutive six forces the stored die value to 0, resets the counter
and returns -1 (a lost turn), after which get_movable_tokens returns the
empty list for every seat, so no token (yard tokens included) can move;
any non-six draw resets the counter to 0. -/
theorem C5_three_sixes (g : LudoGame) (draw : Int)
    (hc : 0 ≤ g.consecutive_sixes ∧ g.consecutive_sixes ≤ 2) :
    (draw = 6 ∧ g.consecutive_sixes ≤ 1 →
      (roll_dice g draw).1.consecutive_sixes = g.consecutive_sixes + 1 ∧
      (roll_dice g draw).1.dice_roll = 6 ∧ (roll_dice g draw).2 = 6) ∧
    (draw = 6 ∧ g.consecutive_sixes = 2 →
      (roll_dice g draw).1.dice_roll = 0 ∧
      (roll_dice g draw).1.consecutive_sixes = 0 ∧
      (roll_dice g draw).2 = -1 ∧
      ∀ pid, get_movable_tokens (roll_dice g draw).1 pid = some []) ∧
    (draw ≠ 6 →
      (roll_dice g draw).1.consecutive_sixes = 0 ∧
      (roll_dice g draw).1.dice_roll = draw ∧ (roll_dice g draw).2 = draw) := by
  refine ⟨?_, ?_, ?_⟩
  · rintro ⟨rfl, hle⟩
    unfold roll_dice
    rw [if_pos rfl, if_neg (by omega)]
    exact ⟨rfl, rfl, rfl⟩
  · rintro ⟨rfl, h2⟩
    unfold roll_dice
    rw [if_pos rfl, if_pos (by omega)]
    refine ⟨rfl, rfl, rfl, ?_⟩
    intro pid
    unfold get_movable_tokens
    rw [if_pos rfl]
  · intro hne
    unfold roll_dice
    rw [if_neg hne]
    exact ⟨rfl, rfl, rfl⟩

/-- The constructed two-seat game after two consecutive sixes. -/
def gW5 : LudoGame := { gInit with consecutive_sixes := 2 }

theorem C5_three_sixes_witness :
    (roll_dice gW5 6).1.dice_roll = 0 ∧ (roll_dice gW5 6).2 = -1 := by
  obtain ⟨-, h2, -⟩ := C5_three_sixes gW5 6 (by decide)
  obtain ⟨ha, -, hc, -⟩ := h2 ⟨rfl, by decide⟩
  exact ⟨ha, hc⟩

/-- C10: from any state whose consecutive-six counter is 0, 1 or 2, the
counter after roll_dice is again 0, 1 or 2 (never 3 or more), and it is 0
exactly when the draw was not a six or the third consecutive six occurred. -/
theorem C10_counter_range (g : LudoGame) (draw : Int)
    (hc : 0 ≤ g.consecutive_sixes ∧ g.consecutive_sixes ≤ 2) :
    ((roll_dice g draw).1.consecutive_sixes = 0 ∨
     (roll_dice g draw).1.consecutive_sixes = 1 ∨
     (roll_dice g draw).1.consecutive_sixes = 2) ∧
    ((roll_dice g draw).1.consecutive_sixes = 0 ↔ (draw ≠ 6 ∨ g.consecutive_sixes = 2)) := by
  unfold roll_dice
  by_cases h6 : draw = 6
  · rw [if_pos h6]
    by_cases h3 : g.consecutive_sixes + 1 = 3
    · rw [if_pos h3]
      refine ⟨Or.inl rfl, ?_, ?_⟩
      · intro hz
        right
        omega
      · intro hd
        rfl
    · rw [if_neg h3]
      constructor
      · show g.consecutive_sixes + 1 = 0 ∨ g.consecutive_sixes + 1 = 1 ∨ g.consecutive_sixes + 1 = 2
        omega
      · show g.consecutive_sixes + 1 = 0 ↔ (draw ≠ 6 ∨ g.consecutive_sixes = 2)
        constructor
        · intro h
          omega
        · rintro (hne | h2)
          · exact absurd h6 hne
          · omega
  · rw [if_neg h6]
    exact ⟨Or.inl rfl, fun _ => Or.inl h6, fun _ => rfl⟩

theorem C10_counter_range_witness : (roll_dice gW5 6).1.consecutive_sixes = 0 :=
  (C10_counter_range gW5 6 (by decide)).2.mpr (Or.inr (by decide))

/-- C6: get_next_player keeps the turn index exactly when the die value is
6 (a turn forfeited by the three-sixes rule has die value 0, so it always
advances); otherwise the turn index becomes the next seat in construction
order, wrapping past the last seat; the die value resets to 0 in every
case, and the id of the seat now to move is returned. -/
theorem C6_advance_turn (g : LudoGame)
    (hcs : 0 ≤ g.consecutive_sixes)
    (hlen : g.player_order.length ≠ 0)
    (hidx : g.current_player_index < g.player_order.length) :
    ∃ g2 pid, get_next_player g = some (g2, pid) ∧
      g2.dice_roll = 0 ∧
      g2.players = g.players ∧ g2.player_order = g.player_order ∧
      g2.consecutive_sixes = g.consecutive_sixes ∧
      (g.dice_roll = 6 → g2.current_player_index = g.current_player_index) ∧
      (g.dice_roll ≠ 6 →
        g2.current_player_index = (g.current_player_index + 1) % g.player_order.length) ∧
      g.player_order[g2.current_player_index]? = some pid := by
  have hcsne : g.consecutive_sixes ≠ -1 := by omega
  by_cases h6 : g.dice_roll = 6
  · unfold get_next_player
    rw [if_neg (by rintro ⟨hne, -⟩; exact hne h6)]
    have hcur : get_current_player_id { g with dice_roll := 0 } =
        some (g.player_order.get ⟨g.current_player_index, hidx⟩) := by
      unfold get_current_player_id
      exact List.getElem?_eq_getElem hidx
    rw [hcur]
    refine ⟨{ g with dice_roll := 0 }, g.player_order.get ⟨g.current_player_index, hidx⟩,
      rfl, rfl, rfl, rfl, rfl, fun _ => rfl, fun hne => absurd h6 hne, ?_⟩
    exact List.getElem?_eq_getElem hidx
  · unfold get_next_player
    rw [if_pos ⟨h6, hcsne⟩, if_neg hlen]
    have hlt : (g.current_player_index + 1) % g.player_order.length < g.player_order.length :=
      Nat.mod_lt _ (Nat.pos_of_ne_zero hlen)
    have hcur : get_current_player_id { g with current_player_index := (g.current_player_index + 1) % g.player_order.length, dice_roll := 0 } =
        some (g.player_order.get ⟨(g.current_player_index + 1) % g.player_order.length, hlt⟩) := by
      unfold get_current_player_id
      exact List.getElem?_eq_getElem hlt
    rw [hcur]
    refine ⟨_, g.player_order.get ⟨(g.current_player_index + 1) % g.player_order.length, hlt⟩,
      rfl, rfl, rfl, rfl, rfl, fun hda => absurd hda h6, fun _ => rfl, ?_⟩
    exact List.getElem?_eq_getElem hlt

/-- The constructed two-seat game with an active die value of 6. -/
def gW6 : LudoGame := { gInit with dice_roll := 6 }

theorem C6_advance_turn_witness :
    (get_next_player gW6).map (fun pr => pr.1.current_player_index) = some 0 := by
  obtain ⟨g2, pid, heq, -, -, -, -, hsix, -, -⟩ :=
    C6_advance_turn gW6 (by decide) (by decide) (by decide)
  rw [heq]
  simp only [Option.map_some']
  rw [hsix (by decide)]
  rfl

theorem nodup_of_length_le_one (l : List Int) (h : l.length ≤ 1) : l.Nodup := by
  cases l with
  | nil => exact List.nodup_nil
  | cons a rest =>
    cases rest with
    | nil => exact List.nodup_singleton a
    | cons b t =>
      simp only [List.length_cons] at h
      omega

theorem dedup_length_lt_iff (l : List Int) : l.dedup.length < l.length ↔ ¬ l.Nodup := by
  constructor
  · intro h hnd
    rw [List.dedup_eq_self.mpr hnd] at h
    omega
  · intro hnd
    rcases Nat.lt_or_ge l.dedup.length l.length with h | h
    · exact h
    · exfalso
      have hsub := List.dedup_sublist l
      have heq : l.dedup = l := hsub.eq_of_length (Nat.le_antisymm hsub.length_le h)
      exact hnd (heq ▸ List.nodup_dedup l)

theorem tokensOf_all : ∀ (toks : List Int) (pos pid x : Int),
    x ∈ toks.filterMap (fun t => if t = pos then some pid else none) → x = pid := by
  intro toks pos pid
  induction toks with
  | nil =>
    intro x hx
    cases hx
  | cons a rest ih =>
    intro x hx
    by_cases ha : a = pos
    · rw [List.filterMap_cons_some (by rw [if_pos ha])] at hx
      rcases List.mem_cons.mp hx with rfl | hx
      · rfl
      · exact ih x hx
    · rw [List.filterMap_cons_none (by rw [if_neg ha])] at hx
      exact ih x hx

theorem tokensOf_length : ∀ (toks : List Int) (pos pid : Int),
    (toks.filterMap (fun t => if t = pos then some pid else none)).length =
      toks.countP (fun t => decide (t = pos)) := by
  intro toks pos pid
  induction toks with
  | nil => rfl
  | cons a rest ih =>
    by_cases ha : a = pos
    · rw [List.filterMap_cons_some (by rw [if_pos ha]), List.length_cons, ih,
        List.countP_cons_of_pos _ rest (by simpa using ha)]
    · rw [List.filterMap_cons_none (by rw [if_neg ha]), ih,
        List.countP_cons_of_neg _ rest (by simpa using ha)]

theorem not_nodup_of_two_const (l : List Int) (x : Int)
    (hall : ∀ y ∈ l, y = x) (hlen : 2 ≤ l.length) : ¬ l.Nodup := by
  cases l with
  | nil => simp at hlen
  | cons a rest =>
    cases rest with
    | nil => simp at hlen
    | cons b t =>
      intro hnd
      have ha : a = x := hall a (List.mem_cons_self _ _)
      have hb : b = x := hall b (List.mem_cons_of_mem _ (List.mem_cons_self _ _))
      rw [List.nodup_cons] at hnd
      exact hnd.1 (by rw [ha, ← hb]; exact List.mem_cons_self _ _)

theorem mem_tokensAt : ∀ (ps : List (Int × PlayerData)) (pos x : Int),
    x ∈ tokensAt ps pos → x ∈ ps.map Prod.fst := by
  intro ps
  induction ps with
  | nil =>
    intro pos x hx
    cases hx
  | cons hd tl ih =>
    intro pos x hx
    obtain ⟨pid, pd⟩ := hd
    rw [tokensAt] at hx
    rw [List.map_cons]
    rcases List.mem_append.mp hx with hx | hx
    · rw [tokensOf_all pd.tokens pos pid x hx]
      exact List.mem_cons_self _ _
    · exact List.mem_cons_of_mem _ (ih pos x hx)

theorem tokensAt_not_nodup : ∀ (ps : List (Int × PlayerData)) (pos pid : Int) (pd : PlayerData),
    (pid, pd) ∈ ps → 2 ≤ pd.tokens.countP (fun t => decide (t = pos)) →
    ¬ (tokensAt ps pos).Nodup := by
  intro ps
  induction ps with
  | nil =>
    intro pos pid pd hmem
    cases hmem
  | cons hd tl ih =>
    intro pos pid pd hmem hcnt hnd
    obtain ⟨k, v⟩ := hd
    rw [tokensAt] at hnd
    rcases List.mem_cons.mp hmem with heq | hmem2
    · injection heq with h1 h2
      subst h1
      subst h2
      exact not_nodup_of_two_const _ pid (tokensOf_all _ pos pid)
        (by rw [tokensOf_length]; exact hcnt) hnd.of_append_left
    · exact ih pos pid pd hmem2 hcnt hnd.of_append_right

theorem tokensAt_nodup : ∀ (ps : List (Int × PlayerData)) (pos : Int),
    (ps.map Prod.fst).Nodup →
    (∀ pr ∈ ps, pr.2.tokens.countP (fun t => decide (t = pos)) ≤ 1) →
    (tokensAt ps pos).Nodup := by
  intro ps
  induction ps with
  | nil =>
    intro pos hk hc
    exact List.nodup_nil
  | cons hd tl ih =>
    intro pos hk hc
    obtain ⟨k, v⟩ := hd
    rw [tokensAt]
    rw [List.map_cons, List.nodup_cons] at hk
    rw [List.nodup_append]
    refine ⟨?_, ih pos hk.2 (fun pr hpr => hc pr (List.mem_cons_of_mem _ hpr)), ?_⟩
    · refine nodup_of_length_le_one _ ?_
      rw [tokensOf_length]
      exact hc (k, v) (List.mem_cons_self _ _)
    · intro x hx1 hx2
      have hxk : x = k := tokensOf_all v.tokens pos k x hx1
      subst hxk
      exact hk.1 (mem_tokensAt tl pos x hx2)

/-- C2: the capture resolution applied whenever a move lands on a main-path
cell (the source calls it before placing the mover, for yard exits and
main-path moves alike): on a safe cell the state is untouched; on a cell
where some single seat has two or more tokens (a block) the state is
untouched, so nobody is captured; otherwise every token of every opposing
seat on that cell goes back to the yard, tokens elsewhere keep their
positions, and the mover's own entry is never modified. -/
theorem C2_capture_rule (g : LudoGame) (position mover : Int)
    (hkeys : (g.players.map Prod.fst).Nodup) :
    (position ∈ SAFE_ZONES → knock_out_opponents_at g position mover = g) ∧
    (position ∉ SAFE_ZONES →
      (∃ pr ∈ g.players, 2 ≤ pr.2.tokens.countP (fun t => decide (t = position))) →
      knock_out_opponents_at g position mover = g) ∧
    (position ∉ SAFE_ZONES →
      (∀ pr ∈ g.players, pr.2.tokens.countP (fun t => decide (t = position)) ≤ 1) →
      ∀ pr ∈ g.players,
        (pr.1 = mover → pr ∈ (knock_out_opponents_at g position mover).players) ∧
        (pr.1 ≠ mover →
          (pr.1, { pr.2 with
            tokens := pr.2.tokens.map fun t => if t = position then HOME_YARD else t }) ∈
            (knock_out_opponents_at g position mover).players)) := by
  refine ⟨?_, ?_, ?_⟩
  · intro hsafe
    unfold knock_out_opponents_at
    rw [if_pos hsafe]
  · rintro hns ⟨pr, hpr, hcnt⟩
    unfold knock_out_opponents_at
    rw [if_neg hns]
    have hnnd : ¬ (tokensAt g.players position).Nodup :=
      tokensAt_not_nodup g.players position pr.1 pr.2 hpr hcnt
    have hlen2 : (tokensAt g.players position).length > 1 := by
      by_contra hle
      exact hnnd (nodup_of_length_le_one _ (by omega))
    rw [if_pos ⟨hlen2, (dedup_length_lt_iff _).mpr hnnd⟩]
  · intro hns hcnt pr hpr
    have hnd : (tokensAt g.players position).Nodup :=
      tokensAt_nodup g.players position hkeys hcnt
    have hbf : ¬ ((tokensAt g.players position).length > 1 ∧
        (tokensAt g.players position).dedup.length < (tokensAt g.players position).length) := by
      rintro ⟨-, hlt⟩
      exact ((dedup_length_lt_iff _).mp hlt) hnd
    unfold knock_out_opponents_at
    rw [if_neg hns, if_neg hbf]
    constructor
    · intro hpm
      refine List.mem_map.mpr ⟨pr, hpr, ?_⟩
      rw [if_neg (not_not_intro hpm)]
    · intro hpm
      refine List.mem_map.mpr ⟨pr, hpr, ?_⟩
      rw [if_pos hpm]
      rfl

/-- Two-seat game with a seat-1 block (two tokens) and one seat-2 token on
the non-safe cell 5. -/
def gW2 : LudoGame :=
  ⟨[(1, ⟨[5, 5, -1, -1], ("🔴"), 0⟩), (2, ⟨[5, -1, -1, -1], ("🟢"), 1⟩)], 1, [1, 2], 0, 3, 0⟩

theorem C2_capture_rule_witness : knock_out_opponents_at gW2 5 2 = gW2 := by
  have h := (C2_capture_rule gW2 5 2 (by decide)).2.1
  exact h (by decide) ⟨(1, ⟨[5, 5, -1, -1], ("🔴"), 0⟩), by decide, by decide⟩

/-- The constructed two-seat game after the first seat rolls a 3. -/
def gC7 : LudoGame := (roll_dice gInit 3).1

/-- C7 counterexample: with die value 3 no token of seat 1 is movable, yet
move_token does not fail with any IllegalMove error: it succeeds and
mutates the state, teleporting a yard token onto main-path cell
2 = (-1 + 3) mod 52.  This refutes the claim that a move of a token absent
from get_movable_tokens fails and leaves the state unchanged. -/
theorem C7_counterexample :
    get_movable_tokens gC7 1 = some [] ∧
    (move_token gC7 1 0).map (fun pr => ((dictGet pr.1.players 1).map PlayerData.tokens, pr.2)) =
      some (some [2, -1, -1, -1], ("moved")) ∧
    (dictGet gC7.players 1).map PlayerData.tokens = some [-1, -1, -1, -1] :=
  ⟨rfl, rfl, rfl⟩

/-- C7 amended: move_token validates nothing against get_movable_tokens; it
fails only when the player id is missing or the token index is out of range
(the modelled KeyError and IndexError), and that failure precedes any
mutation; the amended theorem proves the out-of-range half: an index past
the token list makes move_token fail with no state returned. -/
theorem C7_out_of_range (g : LudoGame) (pid : Int) (pd : PlayerData) (i : Nat)
    (hpd : dictGet g.players pid = some pd) (hi : pd.tokens.length ≤ i) :
    move_token g pid i = none := by
  unfold move_token
  rw [hpd]
  dsimp only
  rw [List.getElem?_eq_none hi]

theorem C7_out_of_range_witness : move_token gInit 1 7 = none :=
  C7_out_of_range gInit 1 ⟨List.replicate 4 HOME_YARD, ("🔴"), 0⟩ 7 rfl (by decide)

/-- C8 counterexample: construction performs no argument validation: a win
condition of 7 (outside 1, 2, 4) and a duplicated seat list both construct
successfully, so no InvalidConfiguration failure exists in the source. -/
theorem C8_counterexample :
    (ludoInit [1, 2] 7).isSome = true ∧ (ludoInit [1, 1] 5).isSome = true :=
  ⟨rfl, rfl⟩

/-- C8 amended: for every seat list of at most four ids (duplicates
included, which collapse into a single dict entry) and every win condition
whatsoever, construction succeeds, with all tokens of every seat in the
yard, the turn index at the first seat, die value 0 and six counter 0;
only a fifth seat fails, by running off the color palette. -/
theorem C8_no_validation (players : List Int) (wc : Int) (hlen : players.length ≤ 4) :
    ∃ g, ludoInit players wc = some g ∧
      g.player_order = players ∧ g.current_player_index = 0 ∧
      g.dice_roll = 0 ∧ g.consecutive_sixes = 0 ∧ g.win_condition = wc ∧
      ∀ pr ∈ g.players, pr.2.tokens = List.replicate 4 HOME_YARD := by
  obtain ⟨ps, hps, hinv⟩ := buildPlayers_spec players 0 []
    (by omega) (by intro pr hpr; cases hpr)
  refine ⟨⟨ps, wc, players, 0, 0, 0⟩, ?_, rfl, rfl, rfl, rfl, rfl,
    fun pr hpr => (hinv pr hpr).1⟩
  unfold ludoInit
  rw [hps]

theorem C8_no_validation_witness : (ludoInit [3, 4] 9).isSome = true := by
  obtain ⟨g, hg, -, -, -, -, -, -⟩ := C8_no_validation [3, 4] 9 (by decide)
  rw [hg]
  rfl
